import Mathlib

/- Verification development for the vertex welding engine of glTF-Transform
   (packages/functions/src/weld.ts).

   JavaScript numbers are modelled as exact rationals.  `Math.round` and
   `Math.fround` are transcribed faithfully (`Math.fround` as rounding to the
   nearest IEEE-754 binary32 value, ties to even); the remaining arithmetic
   (+, -, *, /) is exact where the double-precision original rounds.  Every
   concrete input used below is chosen so that all intermediate values of the
   JavaScript run are exactly representable (dyadic rationals with short
   mantissas), except for a handful of division results that sit far from
   rounding boundaries, so the rational model and the JavaScript floats agree
   on all of them. -/

namespace GltfWeld

/-- JavaScript `Number.EPSILON` (2^-52). -/
def jsEPSILON : ℚ := 1 / 2 ^ 52

/-- JavaScript `Math.round`: rounds to the nearest integer, halves toward
positive infinity (`Math.round(4.5) = 5`, `Math.round(-0.5) = -0`). -/
def jsRound (x : ℚ) : ℤ := ⌊x + 1 / 2⌋

/-- Rounding a rational to the nearest integer with ties to even, the rounding
used by IEEE-754 binary32 arithmetic. -/
def roundHalfEven (x : ℚ) : ℤ :=
  let n := ⌊x⌋
  let r := x - (n : ℚ)
  if r < 1 / 2 then n
  else if 1 / 2 < r then n + 1
  else if n % 2 = 0 then n else n + 1

/-- Fuel-driven base-2 logarithm on naturals (structurally recursive so that
it reduces inside the kernel; with fuel at least `n` it agrees with the usual
`⌊log2 n⌋` for `n ≥ 1`). -/
def natLog2Go : ℕ → ℕ → ℕ
  | 0, _ => 0
  | fuel + 1, n => if 2 ≤ n then natLog2Go fuel (n / 2) + 1 else 0

def natLog2 (n : ℕ) : ℕ := natLog2Go n n

/-- Floor of the base-2 logarithm of a positive rational.  The candidate
derived from the bit lengths of numerator and denominator is off by at most
one, so two comparisons settle it. -/
def qlog2 (x : ℚ) : ℤ :=
  let e0 : ℤ := (natLog2 x.num.natAbs : ℤ) - (natLog2 x.den : ℤ)
  if (2 : ℚ) ^ (e0 + 1) ≤ x then e0 + 1
  else if (2 : ℚ) ^ e0 ≤ x then e0
  else e0 - 1

/-- JavaScript `Math.fround`: round to the nearest IEEE-754 binary32 value
(ties to even), subnormals included.  Overflow to infinity (magnitudes beyond
2^128) is not modelled; every value arising in this development stays far
below that threshold. -/
def fround (x : ℚ) : ℚ :=
  if x = 0 then 0
  else
    let a := |x|
    let e := qlog2 a
    let p : ℤ := max (e - 23) (-149)
    let m := roundHalfEven (a / 2 ^ p)
    (if x < 0 then -1 else 1) * (m : ℚ) * 2 ^ p

/-- JavaScript `String.prototype.startsWith`, as a test on the character
sequences of the two strings. -/
def jsStartsWith (s p : String) : Bool := List.isPrefixOf p.data s.data

/-- A vertex attribute (glTF accessor): a semantic name plus one element (a
short list of components) per vertex. -/
structure Attr where
  semantic : String
  data : List (List ℚ)
deriving DecidableEq

instance : Inhabited Attr := ⟨{ semantic := "", data := [] }⟩

/-- Accessor `getCount()`. -/
def Attr.count (a : Attr) : ℕ := a.data.length

/-- Accessor `getElementSize()` (components per element, e.g. 3 for VEC3). -/
def Attr.elementSize (a : Attr) : ℕ := (a.data.headI).length

/-- Accessor `getElement(i, out)`. -/
def Attr.getElement (a : Attr) (i : ℕ) : List ℚ := a.data.getD i []

/-- Per-component minima over all elements (accessor `getMinNormalized`). -/
def componentMins (a : Attr) : List ℚ :=
  match a.data with
  | [] => []
  | e :: es => es.foldl (fun acc v => List.zipWith min acc v) e

/-- Per-component maxima over all elements (accessor `getMaxNormalized`). -/
def componentMaxs (a : Attr) : List ℚ :=
  match a.data with
  | [] => []
  | e :: es => es.foldl (fun acc v => List.zipWith max acc v) e

/-- JavaScript `Math.min(...list)` (0 stands in for the +infinity produced on
an empty list, which never occurs on the inputs considered here). -/
def listMinQ : List ℚ → ℚ
  | [] => 0
  | x :: xs => xs.foldl min x

/-- JavaScript `Math.max(...list)`. -/
def listMaxQ : List ℚ → ℚ
  | [] => 0
  | x :: xs => xs.foldl max x

/-- A morph target: an attribute set parallel to the primitive's. -/
structure Target where
  attributes : List Attr
deriving DecidableEq

/-- A mesh primitive: ordered attributes, morph targets, an optional index
buffer, and a draw mode. -/
structure Prim where
  attributes : List Attr
  targets : List Target
  indices : Option (List ℕ)
  mode : ℕ
deriving DecidableEq

/-- `Primitive.Mode.POINTS`. -/
def POINTS : ℕ := 0

def Prim.listSemantics (p : Prim) : List String := p.attributes.map Attr.semantic

def Prim.getAttribute (p : Prim) (s : String) : Option Attr :=
  p.attributes.find? (fun a => a.semantic == s)

def Target.listSemantics (t : Target) : List String := t.attributes.map Attr.semantic

def Target.getAttribute (t : Target) (s : String) : Option Attr :=
  t.attributes.find? (fun a => a.semantic == s)

namespace Tolerance

def DEFAULT : ℚ := 1 / 10000

def TEXCOORD : ℚ := 1 / 10000

def COLOR : ℚ := 1 / 100

def NORMAL : ℚ := 1 / 2

def JOINTS : ℚ := 0

def WEIGHTS : ℚ := 1 / 100

end Tolerance

/-- weld.ts `getAttributeTolerance`: fixed thresholds for bounded semantics,
`tolerance * range` (with a range floor of 1) otherwise. -/
def getAttributeTolerance (semantic : String) (attr : Attr) (tolerance : ℚ) : ℚ :=
  if semantic = "NORMAL" ∨ semantic = "TANGENT" then Tolerance.NORMAL
  else if jsStartsWith semantic ("COLOR_") then Tolerance.COLOR
  else if jsStartsWith semantic ("TEXCOORD_") then Tolerance.TEXCOORD
  else if jsStartsWith semantic ("JOINTS_") then Tolerance.JOINTS
  else if jsStartsWith semantic ("WEIGHTS_") then Tolerance.WEIGHTS
  else
    let lo := listMinQ (componentMins attr)
    let hi := listMaxQ (componentMaxs attr)
    let range0 := hi - lo
    let range := if range0 = 0 then 1 else range0
    tolerance * range

/-- weld.ts `compareAttributes`: component-wise maximum-absolute-difference
test.  `tolerance = none` models the JavaScript `undefined` produced by a
tolerance-table miss: every component test `|d| > undefined` is false there,
so the comparison succeeds vacuously. -/
def compareAttributes (attr : Attr) (a b : ℕ) (tolerance : Option ℚ) : Bool :=
  let ea := attr.getElement a
  let eb := attr.getElement b
  (List.range attr.elementSize).all fun i =>
    match tolerance with
    | none => true
    | some t => decide (|ea.getD i 0 - eb.getD i 0| ≤ t)

/-- The per-primitive tolerance table (`attributeTolerance` in
`_weldPrimitive`), as a lookup from semantic to threshold. -/
def attributeToleranceMap (p : Prim) (tolerance : ℚ) : String → Option ℚ :=
  fun s =>
    if (p.listSemantics).contains s then
      match p.getAttribute s with
      | some a => some (getAttributeTolerance s a tolerance)
      | none => none
    else none

/-- The composite grid key of weld.ts `getGridKey`.  The JavaScript code
builds the string `cellX + ':' + cellY + ':' + cellZ`; finite doubles
stringify injectively (and both `+0` and `-0` print as "0", matching the
single rational zero), so the triple of rounded components is used as the key
directly. -/
abbrev GridKey := ℚ × ℚ × ℚ

def getGridKey (x y z cellSize : ℚ) : GridKey :=
  (fround (x * (jsRound (x / cellSize) : ℚ)),
   fround (y * (jsRound (y / cellSize) : ℚ)),
   fround (z * (jsRound (z / cellSize) : ℚ)))

/-- weld.ts `getGridNeighborhoodKeys`: the 27 keys of the points perturbed by
half a cell in each axis combination, in the source's `i, j, k` loop order,
not deduplicated. -/
def getGridNeighborhoodKeys (x y z cellSize : ℚ) : List GridKey :=
  let hc := cellSize / 2
  ([-1, 0, 1] : List ℚ).flatMap fun i =>
    ([-1, 0, 1] : List ℚ).flatMap fun j =>
      ([-1, 0, 1] : List ℚ).map fun k =>
        getGridKey (x + i * hc) (y + j * hc) (z + k * hc) cellSize

/-- The spatial grid (`grid` in `_weldPrimitive`): a JavaScript object keyed
by grid-key strings, looked up but never iterated, so a plain function with
default `[]` is a faithful model (pushed buckets are never empty, hence
`!grid[key]` coincides with the bucket being `[]`). -/
def Grid := GridKey → List ℕ

def gridEmpty : Grid := fun _ => []

/-- `grid[key] = grid[key] || []; grid[key].push(v)`. -/
def gridInsert (g : Grid) (k : GridKey) (v : ℕ) : Grid :=
  fun k2 => if k2 = k then g k ++ [v] else g k2

/-- First three components of a POSITION element (`posA[0..2]`). -/
def posVec (position : Attr) (i : ℕ) : ℚ × ℚ × ℚ :=
  let e := position.getElement i
  (e.getD 0 0, e.getD 1 0, e.getD 2 0)

/-- The grid-filling loop of `_weldPrimitive` step (1). -/
def buildGrid (position : Attr) (uniq : List ℕ) (cellSize : ℚ) : Grid :=
  uniq.foldl
    (fun g i =>
      let v := posVec position i
      gridInsert g (getGridKey v.1 v.2.1 v.2.2 cellSize) i)
    gridEmpty

/-- Modelled from the spec: `createIndices(count)` is imported from
`./utils`, whose source is not included under `src/`; per the spec
("create a trivial identity index `[0..count)`") it produces the identity
index sequence.  The optional second argument of the call at weld.ts line 255
only selects the integer width of the freshly allocated array, every slot of
which is immediately overwritten, so it is not modelled. -/
def createIndices (count : ℕ) : List ℕ := List.range count

def setDedupGo (seen : List ℕ) : List ℕ → List ℕ
  | [] => []
  | x :: xs => if x ∈ seen then setDedupGo seen xs else x :: setDedupGo (x :: seen) xs

/-- JavaScript `new Uint32Array(new Set(array))`: the distinct values of
`array` in first-occurrence order. -/
def setDedup (l : List ℕ) : List ℕ := setDedupGo [] l

/-- The `isBaseMatch` conjunction of `_weldPrimitive` step (2). -/
def isBaseMatch (p : Prim) (tolMap : String → Option ℚ) (a b : ℕ) : Bool :=
  (p.listSemantics).all fun semantic =>
    match p.getAttribute semantic with
    | some attr => compareAttributes attr a b (tolMap semantic)
    | none => true

/-- The `isTargetMatch` conjunction of `_weldPrimitive` step (2). -/
def isTargetMatch (p : Prim) (tolMap : String → Option ℚ) (a b : ℕ) : Bool :=
  p.targets.all fun target =>
    (target.listSemantics).all fun semantic =>
      match target.getAttribute semantic with
      | some attr => compareAttributes attr a b (tolMap semantic)
      | none => true

/-- `isBaseMatch && isTargetMatch`. -/
def isMatch (p : Prim) (tolMap : String → Option ℚ) (a b : ℕ) : Bool :=
  isBaseMatch p tolMap a b && isTargetMatch p tolMap a b

/-- Mutable state of `_weldPrimitive` step (2): the two maps, the output
vertex counter, and a sticky out-of-bounds marker.  `weldMap` and `writeMap`
are JavaScript typed arrays of length `uniqueIndices.length`; an access at a
position beyond that length reads `undefined` or silently drops the write.
The marker records that such an access happened; the model then continues
with a default value 0 where JavaScript would proceed on `undefined`, so the
model is faithful up to and including the first out-of-bounds access (and on
index-dense inputs, where the marker stays false, it is exact). -/
structure WeldState where
  weldMap : List ℕ
  writeMap : List ℕ
  dst : ℕ
  oob : Bool
deriving DecidableEq

/-- Typed-array read: the value (0 standing in for `undefined`) plus an
out-of-bounds marker.  For in-range indices this is plain `getD`. -/
def mread (l : List ℕ) (i : ℕ) : ℕ × Bool :=
  (l.getD i 0, !decide (i < l.length))

/-- Typed-array write: out-of-range writes are silently dropped (which is
exactly `List.set`), and marked. -/
def mwrite (l : List ℕ) (i v : ℕ) : List ℕ × Bool :=
  (l.set i v, !decide (i < l.length))

/-- The inner candidate loop of `_weldPrimitive` step (2): scan one grid
cell's bucket, and on the first candidate `j` whose resolved representative
`b = weldMap[j]` matches `a`, set `weldMap[a] = b` and `break` (the `break`
leaves only this bucket; the enclosing loop over neighbor cells continues). -/
def scanCell (m : ℕ → ℕ → Bool) (a : ℕ) (st : WeldState) : List ℕ → WeldState
  | [] => st
  | j :: rest =>
    let rb := mread st.weldMap j
    let st1 : WeldState := { st with oob := st.oob || rb.2 }
    if m a rb.1 then
      let w := mwrite st1.weldMap a rb.1
      { st1 with weldMap := w.1, oob := st1.oob || w.2 }
    else
      scanCell m a st1 rest

/-- One iteration of the outer vertex loop of `_weldPrimitive` step (2):
scan every neighbor cell, then either assign the next compacted slot (when
`weldMap[a] === a`; an out-of-range read yields `undefined`, which is never
`=== a`) or copy the representative's `writeMap` entry. -/
def processVertex (grid : Grid) (m : ℕ → ℕ → Bool) (keys : List GridKey) (a : ℕ)
    (st : WeldState) : WeldState :=
  let st1 := keys.foldl (fun s key => scanCell m a s (grid key)) st
  let ra := mread st1.weldMap a
  if ra.2 = false ∧ ra.1 = a then
    let w := mwrite st1.writeMap a st1.dst
    { st1 with writeMap := w.1, dst := st1.dst + 1, oob := st1.oob || ra.2 || w.2 }
  else
    let rc := mread st1.writeMap ra.1
    let w := mwrite st1.writeMap a rc.1
    { st1 with writeMap := w.1, oob := st1.oob || ra.2 || rc.2 || w.2 }

/-- Neighborhood keys of vertex `a`, from its position. -/
def neighborhoodOf (position : Attr) (cellSize : ℚ) (a : ℕ) : List GridKey :=
  let v := posVec position a
  getGridNeighborhoodKeys v.1 v.2.1 v.2.2 cellSize

/-- The whole vertex loop of `_weldPrimitive` step (2). -/
def weldFold (grid : Grid) (m : ℕ → ℕ → Bool) (position : Attr) (cellSize : ℚ)
    (uniq : List ℕ) (st : WeldState) : WeldState :=
  uniq.foldl (fun s a => processVertex grid m (neighborhoodOf position cellSize a) a s) st

/-- Recognized options of `weld` before merging with `WELD_DEFAULTS`. -/
structure WeldOptions where
  tolerance : Option ℚ
  overwrite : Option Bool

/-- `Required<WeldOptions>` after merging with the defaults. -/
structure ResolvedOptions where
  tolerance : ℚ
  overwrite : Bool
deriving DecidableEq

def WELD_DEFAULTS : ResolvedOptions := { tolerance := Tolerance.DEFAULT, overwrite := true }

/-- The spread `{ ...WELD_DEFAULTS, ..._options }`. -/
def resolveOptions (o : WeldOptions) : ResolvedOptions :=
  { tolerance := o.tolerance.getD WELD_DEFAULTS.tolerance,
    overwrite := o.overwrite.getD WELD_DEFAULTS.overwrite }

/-- The POSITION accessor of a primitive (weld.ts line 171 asserts its
presence with `!`; the default stands in for the crash on a primitive without
POSITION, which no claim exercises). -/
def srcPositionOf (p : Prim) : Attr :=
  (p.getAttribute ("POSITION")).getD { semantic := "POSITION", data := [] }

/-- `prim.getIndices() || createIndices(srcPosition.getCount())`. -/
def srcIndicesOf (p : Prim) : List ℕ :=
  p.indices.getD (createIndices (srcPositionOf p).count)

/-- `new Uint32Array(new Set(srcIndices.getArray()))`. -/
def uniqueIndicesOf (p : Prim) : List ℕ := setDedup (srcIndicesOf p)

/-- `Math.max(options.tolerance, Number.EPSILON)`. -/
def weldTolerance (o : ResolvedOptions) : ℚ := max o.tolerance jsEPSILON

def weldTolMap (p : Prim) (o : ResolvedOptions) : String → Option ℚ :=
  attributeToleranceMap p (weldTolerance o)

/-- `attributeTolerance.POSITION`, the grid cell size. -/
def cellSizeOf (p : Prim) (o : ResolvedOptions) : ℚ :=
  (weldTolMap p o ("POSITION")).getD 0

def weldMatch (p : Prim) (o : ResolvedOptions) : ℕ → ℕ → Bool :=
  isMatch p (weldTolMap p o)

def gridOf (p : Prim) (o : ResolvedOptions) : Grid :=
  buildGrid (srcPositionOf p) (uniqueIndicesOf p) (cellSizeOf p o)

/-- Proof device: the final state of the matching loop, as `_weldPrimitive`
computes it (definitionally equal to its internal `stF`). -/
def weldFoldResult (p : Prim) (o : ResolvedOptions) : WeldState :=
  weldFold (gridOf p o) (weldMatch p o) (srcPositionOf p) (cellSizeOf p o) (uniqueIndicesOf p)
    { weldMap := createIndices (uniqueIndicesOf p).length,
      writeMap := createIndices (uniqueIndicesOf p).length, dst := 0, oob := false }

/-- weld.ts `swapAttributes`: rebuild one attribute to `dstCount` elements,
writing each source vertex `i` into slot `reorder[i]` the first time that
slot is touched.  A `reorder[i]` at or beyond `dstCount` makes the JavaScript
read `done[reorder[i]]` yield `undefined` (falsy) and then both typed-array
writes are silently dropped, so the net effect equals skipping; the explicit
bounds test models that. -/
def swapAttributes (reorder : List ℕ) (dstCount : ℕ) (srcAttr : Attr) : Attr :=
  let init := List.replicate dstCount (List.replicate srcAttr.elementSize (0 : ℚ))
  let res := (reorder.enum).foldl
    (fun (acc : List (List ℚ) × List Bool) (ir : ℕ × ℕ) =>
      if ir.2 < dstCount ∧ acc.2.getD ir.2 true = false then
        (acc.1.set ir.2 (srcAttr.getElement ir.1), acc.2.set ir.2 true)
      else acc)
    (init, List.replicate dstCount false)
  { semantic := srcAttr.semantic, data := res.1 }

/-- The observable outcome of one `_weldPrimitive` call. -/
structure WeldRun where
  uniqueIndices : List ℕ
  weldMap : List ℕ
  writeMap : List ℕ
  dstVertexCount : ℕ
  dstIndices : List ℕ
  primOut : Prim
  oob : Bool
deriving DecidableEq

/-- weld.ts `_weldPrimitive`: tolerance table, spatial grid, matching loop,
index rewrite, and attribute rebuild.  Accessor disposal and buffer
ownership (weld.ts lines 260, 301) belong to the external document graph and
are not part of the primitive-level outcome modelled here. -/
def _weldPrimitive (p : Prim) (o : ResolvedOptions) : WeldRun :=
  let srcPosition := srcPositionOf p
  let srcIndices := srcIndicesOf p
  let uniq := uniqueIndicesOf p
  let cellSize := cellSizeOf p o
  let grid := gridOf p o
  let m := weldMatch p o
  let st0 : WeldState :=
    { weldMap := createIndices uniq.length, writeMap := createIndices uniq.length,
      dst := 0, oob := false }
  let stF := weldFold grid m srcPosition cellSize uniq st0
  let reads := srcIndices.map (fun i => mread stF.writeMap i)
  let dstIndicesArray := reads.map Prod.fst
  let newAttrs := p.attributes.map (swapAttributes stF.writeMap stF.dst)
  let newTargets := p.targets.map
    (fun t => { attributes := t.attributes.map (swapAttributes stF.writeMap stF.dst) })
  { uniqueIndices := uniq,
    weldMap := stF.weldMap,
    writeMap := stF.writeMap,
    dstVertexCount := stF.dst,
    dstIndices := dstIndicesArray,
    primOut := { attributes := newAttrs, targets := newTargets,
                 indices := some dstIndicesArray, mode := p.mode },
    oob := stF.oob || reads.any Prod.snd }

/-- weld.ts `_indexPrimitive`: add an identity index buffer if missing. -/
def _indexPrimitive (p : Prim) : Prim :=
  match p.indices with
  | some _ => p
  | none => { p with indices := some (createIndices ((p.attributes.headI).count)) }

/-- weld.ts `weldPrimitive`: the per-primitive dispatcher. -/
def weldPrimitive (p : Prim) (o : ResolvedOptions) : Prim :=
  if p.indices.isSome ∧ o.overwrite = false then p
  else if p.mode = POINTS then p
  else if o.tolerance = 0 then _indexPrimitive p
  else (_weldPrimitive p o).primOut

/-- weld.ts `weld`: option resolution and tolerance validation happen inside
`weld` itself, synchronously, before the transform function over the document
is even constructed — the returned closure is the only part that ever touches
document state (the trailing accessor-dedup pass is the external collaborator
and is not modelled). -/
def weld (o : WeldOptions) : Except String (List Prim → List Prim) :=
  let options := resolveOptions o
  if options.tolerance > 1 / 10 ∨ options.tolerance < 0 then
    Except.error ("weld: Requires 0 <= tolerance <= 0.1")
  else
    Except.ok (fun prims => prims.map (fun p => weldPrimitive p options))

/-- Stop-at-first-match semantics as claim C2 states it: all candidates of
all neighbor cells form one stream, and the first whose resolved
representative matches ends the whole search.  This is the claim's wording,
written out to be compared with the transcription `processVertex`. -/
def processVertexFirstStop (grid : Grid) (m : ℕ → ℕ → Bool) (keys : List GridKey) (a : ℕ)
    (wm : List ℕ) : List ℕ :=
  match (keys.flatMap fun key => grid key).find? (fun j => m a (wm.getD j 0)) with
  | some j => wm.set a (wm.getD j 0)
  | none => wm

/-- The weld map a full pass would produce under claim C2's stop-at-first
semantics (claim-side definition, for comparison only). -/
def weldMapFirstStop (p : Prim) (o : ResolvedOptions) : List ℕ :=
  let uniq := uniqueIndicesOf p
  uniq.foldl
    (fun wm a =>
      processVertexFirstStop (gridOf p o) (weldMatch p o)
        (neighborhoodOf (srcPositionOf p) (cellSizeOf p o) a) a wm)
    (createIndices uniq.length)

/-- The per-coordinate key formula exactly as claim C8 words it: the
single-precision rounding of the coordinate times the rounded quotient
`coordinate / cellSize` (spec-side definition, for comparison only). -/
def gridKeySpecCoord (c cellSize : ℚ) : ℚ := fround (c * (jsRound (c / cellSize) : ℚ))

/-- The 27 perturbed points of claim C8, `i, j, k` ranging over `{-1, 0, 1}`
(spec-side definition, for comparison only). -/
def gridNeighborhoodSpec (x y z cellSize : ℚ) : List GridKey :=
  (([-1, 0, 1] : List ℚ).flatMap fun i =>
    ([-1, 0, 1] : List ℚ).flatMap fun j =>
      ([-1, 0, 1] : List ℚ).map fun k => (i, j, k)).map
    (fun ijk =>
      (gridKeySpecCoord (x + ijk.1 * (cellSize / 2)) cellSize,
       gridKeySpecCoord (y + ijk.2.1 * (cellSize / 2)) cellSize,
       gridKeySpecCoord (z + ijk.2.2 * (cellSize / 2)) cellSize))

/-- The effect of scanning one grid cell on the weld map, as the amended
claim C2 states it: the first candidate `j` of the bucket whose resolved
representative matches decides the assignment, and the rest of the bucket is
skipped (claim-side definition, compared with `scanCell` below). -/
def cellScanSpec (g : Grid) (m : ℕ → ℕ → Bool) (a : ℕ) (wm : List ℕ) (key : GridKey) :
    List ℕ :=
  match (g key).find? (fun j => m a (wm.getD j 0)) with
  | some j => wm.set a (wm.getD j 0)
  | none => wm

/-- Proof device: the invariant maintained by the matching loop — every weld
map entry is either its own index or a value its index matched against. -/
def WMInv (m : ℕ → ℕ → Bool) (wm : List ℕ) : Prop :=
  ∀ i, i < wm.length → wm.getD i 0 = i ∨ m i (wm.getD i 0) = true

/-- Proof device for C10: both maps have length `n`, every weld-map entry is
below `n`, and no out-of-bounds access has happened. -/
def MapsGood (n : ℕ) (st : WeldState) : Prop :=
  st.weldMap.length = n ∧ st.writeMap.length = n ∧
    (∀ i, i < n → st.weldMap.getD i 0 < n) ∧ st.oob = false

/-- Concrete POSITION data for the C1/C3 runs: four collinear vertices at
x = 1.125, 1.0, 1.25 and 4.0 (the last fixes the attribute range at 4, so
tolerance 1/16 gives cell size 1/4).  All arithmetic on these inputs is exact
in binary32 and binary64. -/
def posAttrC1 : Attr :=
  { semantic := "POSITION",
    data := [[9/8, 0, 0], [1, 0, 0], [5/4, 0, 0], [4, 0, 0]] }

def primC1 : Prim :=
  { attributes := [posAttrC1], targets := [], indices := some [1, 0, 2, 3], mode := 1 }

/-- Tolerance 1/16 (within the accepted range (0, 0.1]). -/
def optsW : ResolvedOptions := { tolerance := 1/16, overwrite := true }

/-- Concrete POSITION data for the C2 run: x = 1.0, 0.875, 1.125, 4.0. -/
def posAttrC2 : Attr :=
  { semantic := "POSITION",
    data := [[1, 0, 0], [7/8, 0, 0], [9/8, 0, 0], [4, 0, 0]] }

def primC2 : Prim :=
  { attributes := [posAttrC2], targets := [], indices := some [0, 1, 2, 3], mode := 1 }

/-- Concrete POSITION data for the C6 runs: x = 1.0, 0.875, 4.0. -/
def posAttrC6 : Attr :=
  { semantic := "POSITION", data := [[1, 0, 0], [7/8, 0, 0], [4, 0, 0]] }

def primC6 : Prim :=
  { attributes := [posAttrC6], targets := [], indices := some [0, 1, 2], mode := 1 }

/-- Tolerance 5/64, larger than 1/16 and still within (0, 0.1]. -/
def optsW2 : ResolvedOptions := { tolerance := 5/64, overwrite := true }

def jointsAttrC7 : Attr :=
  { semantic := "JOINTS_0", data := [[1, 0, 0, 0], [2, 0, 0, 0]] }

/-- Two vertices at the same position whose JOINTS_0 values differ. -/
def primC7 : Prim :=
  { attributes :=
      [{ semantic := "POSITION", data := [[0, 0, 0], [0, 0, 0]] }, jointsAttrC7],
    targets := [], indices := some [0, 1], mode := 1 }

/-- A sparse-index primitive: three vertices, of which only vertices 0 and 2
are referenced, so the distinct index values {0, 2} are not {0, 1}. -/
def primC10 : Prim :=
  { attributes := [{ semantic := "POSITION", data := [[0, 0, 0], [1, 0, 0], [2, 0, 0]] }],
    targets := [], indices := some [0, 2], mode := 1 }

/-- An unindexed POINTS primitive. -/
def primPoints : Prim :=
  { attributes := [{ semantic := "POSITION", data := [[0, 0, 0], [1, 0, 0]] }],
    targets := [], indices := none, mode := 0 }

/-- An indexed triangle primitive used for the overwrite=false witness. -/
def primIdx : Prim :=
  { attributes := [{ semantic := "POSITION", data := [[0, 0, 0], [1, 0, 0], [0, 1, 0]] }],
    targets := [], indices := some [0, 1, 2], mode := 4 }

def optsNoOverwrite : ResolvedOptions := { tolerance := 1/16, overwrite := false }

/-- An unindexed triangle primitive used for the tolerance=0 witness. -/
def primNoIdx : Prim :=
  { attributes := [{ semantic := "POSITION", data := [[0, 0, 0], [1, 0, 0], [0, 1, 0]] }],
    targets := [], indices := none, mode := 4 }

def optsZero : ResolvedOptions := { tolerance := 0, overwrite := true }

end GltfWeld

namespace GltfWeld

/- From here on: lemmas and theorems.  Batteries marks the rational-number
field operations `@[irreducible]`; making them locally semireducible lets
`decide` evaluate the model on the concrete inputs above (the kernel itself
never looks at the attribute). -/
section DecideEval

attribute [local semireducible] Rat.mul Rat.inv Rat.add Rat.sub

set_option maxRecDepth 4000

theorem weldFold_nil (g : Grid) (m : ℕ → ℕ → Bool) (pos : Attr) (cs : ℚ) (st : WeldState) :
    weldFold g m pos cs [] st = st := rfl

theorem weldFold_cons (g : Grid) (m : ℕ → ℕ → Bool) (pos : Attr) (cs : ℚ) (a : ℕ)
    (l : List ℕ) (st : WeldState) :
    weldFold g m pos cs (a :: l) st =
      weldFold g m pos cs l (processVertex g m (neighborhoodOf pos cs a) a st) := rfl

/-- Evaluation of the welding pass on `primC1` (tolerance 1/16), carried out
one processed vertex at a time so that each step stays within the kernel
reduction depth available. -/
theorem weldRun_C1 :
    _weldPrimitive primC1 optsW =
      { uniqueIndices := [1, 0, 2, 3],
        weldMap := [2, 0, 2, 3],
        writeMap := [2, 0, 0, 1],
        dstVertexCount := 2,
        dstIndices := [0, 2, 0, 1],
        primOut := { attributes := [{ semantic := "POSITION", data := [[1, 0, 0], [4, 0, 0]] }],
                     targets := [], indices := some [0, 2, 0, 1], mode := 1 },
        oob := false } := by
  have hu : uniqueIndicesOf primC1 = [1, 0, 2, 3] := by decide
  have h1 : processVertex (gridOf primC1 optsW) (weldMatch primC1 optsW)
      (neighborhoodOf (srcPositionOf primC1) (cellSizeOf primC1 optsW) 1) 1
      { weldMap := [0, 1, 2, 3], writeMap := [0, 1, 2, 3], dst := 0, oob := false } =
      { weldMap := [0, 0, 2, 3], writeMap := [0, 0, 2, 3], dst := 0, oob := false } := by decide
  have h2 : processVertex (gridOf primC1 optsW) (weldMatch primC1 optsW)
      (neighborhoodOf (srcPositionOf primC1) (cellSizeOf primC1 optsW) 0) 0
      { weldMap := [0, 0, 2, 3], writeMap := [0, 0, 2, 3], dst := 0, oob := false } =
      { weldMap := [2, 0, 2, 3], writeMap := [2, 0, 2, 3], dst := 0, oob := false } := by decide
  have h3 : processVertex (gridOf primC1 optsW) (weldMatch primC1 optsW)
      (neighborhoodOf (srcPositionOf primC1) (cellSizeOf primC1 optsW) 2) 2
      { weldMap := [2, 0, 2, 3], writeMap := [2, 0, 2, 3], dst := 0, oob := false } =
      { weldMap := [2, 0, 2, 3], writeMap := [2, 0, 0, 3], dst := 1, oob := false } := by decide
  have h4 : processVertex (gridOf primC1 optsW) (weldMatch primC1 optsW)
      (neighborhoodOf (srcPositionOf primC1) (cellSizeOf primC1 optsW) 3) 3
      { weldMap := [2, 0, 2, 3], writeMap := [2, 0, 0, 3], dst := 1, oob := false } =
      { weldMap := [2, 0, 2, 3], writeMap := [2, 0, 0, 1], dst := 2, oob := false } := by decide
  have hF : weldFold (gridOf primC1 optsW) (weldMatch primC1 optsW) (srcPositionOf primC1)
      (cellSizeOf primC1 optsW) (uniqueIndicesOf primC1)
      { weldMap := createIndices (uniqueIndicesOf primC1).length,
        writeMap := createIndices (uniqueIndicesOf primC1).length, dst := 0, oob := false } =
      { weldMap := [2, 0, 2, 3], writeMap := [2, 0, 0, 1], dst := 2, oob := false } := by
    rw [hu]
    show weldFold (gridOf primC1 optsW) (weldMatch primC1 optsW) (srcPositionOf primC1)
      (cellSizeOf primC1 optsW) [1, 0, 2, 3]
      { weldMap := [0, 1, 2, 3], writeMap := [0, 1, 2, 3], dst := 0, oob := false } = _
    rw [weldFold_cons, h1, weldFold_cons, h2, weldFold_cons, h3, weldFold_cons, h4, weldFold_nil]
  simp only [_weldPrimitive]
  rw [hF]
  decide

/-- Evaluation of the welding pass on `primC2` (tolerance 1/16). -/
theorem weldRun_C2 :
    _weldPrimitive primC2 optsW =
      { uniqueIndices := [0, 1, 2, 3],
        weldMap := [2, 2, 2, 3],
        writeMap := [2, 2, 0, 1],
        dstVertexCount := 2,
        dstIndices := [2, 2, 0, 1],
        primOut := { attributes := [{ semantic := "POSITION", data := [[9/8, 0, 0], [4, 0, 0]] }],
                     targets := [], indices := some [2, 2, 0, 1], mode := 1 },
        oob := false } := by
  have hu : uniqueIndicesOf primC2 = [0, 1, 2, 3] := by decide
  have h1 : processVertex (gridOf primC2 optsW) (weldMatch primC2 optsW)
      (neighborhoodOf (srcPositionOf primC2) (cellSizeOf primC2 optsW) 0) 0
      { weldMap := [0, 1, 2, 3], writeMap := [0, 1, 2, 3], dst := 0, oob := false } =
      { weldMap := [2, 1, 2, 3], writeMap := [2, 1, 2, 3], dst := 0, oob := false } := by decide
  have h2 : processVertex (gridOf primC2 optsW) (weldMatch primC2 optsW)
      (neighborhoodOf (srcPositionOf primC2) (cellSizeOf primC2 optsW) 1) 1
      { weldMap := [2, 1, 2, 3], writeMap := [2, 1, 2, 3], dst := 0, oob := false } =
      { weldMap := [2, 2, 2, 3], writeMap := [2, 2, 2, 3], dst := 0, oob := false } := by decide
  have h3 : processVertex (gridOf primC2 optsW) (weldMatch primC2 optsW)
      (neighborhoodOf (srcPositionOf primC2) (cellSizeOf primC2 optsW) 2) 2
      { weldMap := [2, 2, 2, 3], writeMap := [2, 2, 2, 3], dst := 0, oob := false } =
      { weldMap := [2, 2, 2, 3], writeMap := [2, 2, 0, 3], dst := 1, oob := false } := by decide
  have h4 : processVertex (gridOf primC2 optsW) (weldMatch primC2 optsW)
      (neighborhoodOf (srcPositionOf primC2) (cellSizeOf primC2 optsW) 3) 3
      { weldMap := [2, 2, 2, 3], writeMap := [2, 2, 0, 3], dst := 1, oob := false } =
      { weldMap := [2, 2, 2, 3], writeMap := [2, 2, 0, 1], dst := 2, oob := false } := by decide
  have hF : weldFold (gridOf primC2 optsW) (weldMatch primC2 optsW) (srcPositionOf primC2)
      (cellSizeOf primC2 optsW) (uniqueIndicesOf primC2)
      { weldMap := createIndices (uniqueIndicesOf primC2).length,
        writeMap := createIndices (uniqueIndicesOf primC2).length, dst := 0, oob := false } =
      { weldMap := [2, 2, 2, 3], writeMap := [2, 2, 0, 1], dst := 2, oob := false } := by
    rw [hu]
    show weldFold (gridOf primC2 optsW) (weldMatch primC2 optsW) (srcPositionOf primC2)
      (cellSizeOf primC2 optsW) [0, 1, 2, 3]
      { weldMap := [0, 1, 2, 3], writeMap := [0, 1, 2, 3], dst := 0, oob := false } = _
    rw [weldFold_cons, h1, weldFold_cons, h2, weldFold_cons, h3, weldFold_cons, h4, weldFold_nil]
  simp only [_weldPrimitive]
  rw [hF]
  decide

/-- The weld map claim C2's stop-at-first-match semantics would produce on
`primC2`, evaluated stepwise. -/
theorem firstStopRun_C2 : weldMapFirstStop primC2 optsW = [1, 1, 1, 3] := by
  have hu : uniqueIndicesOf primC2 = [0, 1, 2, 3] := by decide
  have h1 : processVertexFirstStop (gridOf primC2 optsW) (weldMatch primC2 optsW)
      (neighborhoodOf (srcPositionOf primC2) (cellSizeOf primC2 optsW) 0) 0
      [0, 1, 2, 3] = [1, 1, 2, 3] := by decide
  have h2 : processVertexFirstStop (gridOf primC2 optsW) (weldMatch primC2 optsW)
      (neighborhoodOf (srcPositionOf primC2) (cellSizeOf primC2 optsW) 1) 1
      [1, 1, 2, 3] = [1, 1, 2, 3] := by decide
  have h3 : processVertexFirstStop (gridOf primC2 optsW) (weldMatch primC2 optsW)
      (neighborhoodOf (srcPositionOf primC2) (cellSizeOf primC2 optsW) 2) 2
      [1, 1, 2, 3] = [1, 1, 1, 3] := by decide
  have h4 : processVertexFirstStop (gridOf primC2 optsW) (weldMatch primC2 optsW)
      (neighborhoodOf (srcPositionOf primC2) (cellSizeOf primC2 optsW) 3) 3
      [1, 1, 1, 3] = [1, 1, 1, 3] := by decide
  simp only [weldMapFirstStop]
  rw [hu]
  show List.foldl _ ([0, 1, 2, 3] : List ℕ) [0, 1, 2, 3] = _
  simp only [List.foldl_cons, List.foldl_nil]
  rw [h1, h2, h3, h4]

/-- Evaluation of the welding pass on `primC6` at tolerance 1/16: the two
nearby vertices merge, so two output vertices remain. -/
theorem weldRun_C6a :
    _weldPrimitive primC6 optsW =
      { uniqueIndices := [0, 1, 2],
        weldMap := [1, 1, 2],
        writeMap := [1, 0, 1],
        dstVertexCount := 2,
        dstIndices := [1, 0, 1],
        primOut := { attributes := [{ semantic := "POSITION", data := [[7/8, 0, 0], [1, 0, 0]] }],
                     targets := [], indices := some [1, 0, 1], mode := 1 },
        oob := false } := by
  have hu : uniqueIndicesOf primC6 = [0, 1, 2] := by decide
  have h1 : processVertex (gridOf primC6 optsW) (weldMatch primC6 optsW)
      (neighborhoodOf (srcPositionOf primC6) (cellSizeOf primC6 optsW) 0) 0
      { weldMap := [0, 1, 2], writeMap := [0, 1, 2], dst := 0, oob := false } =
      { weldMap := [1, 1, 2], writeMap := [1, 1, 2], dst := 0, oob := false } := by decide
  have h2 : processVertex (gridOf primC6 optsW) (weldMatch primC6 optsW)
      (neighborhoodOf (srcPositionOf primC6) (cellSizeOf primC6 optsW) 1) 1
      { weldMap := [1, 1, 2], writeMap := [1, 1, 2], dst := 0, oob := false } =
      { weldMap := [1, 1, 2], writeMap := [1, 0, 2], dst := 1, oob := false } := by decide
  have h3 : processVertex (gridOf primC6 optsW) (weldMatch primC6 optsW)
      (neighborhoodOf (srcPositionOf primC6) (cellSizeOf primC6 optsW) 2) 2
      { weldMap := [1, 1, 2], writeMap := [1, 0, 2], dst := 1, oob := false } =
      { weldMap := [1, 1, 2], writeMap := [1, 0, 1], dst := 2, oob := false } := by decide
  have hF : weldFold (gridOf primC6 optsW) (weldMatch primC6 optsW) (srcPositionOf primC6)
      (cellSizeOf primC6 optsW) (uniqueIndicesOf primC6)
      { weldMap := createIndices (uniqueIndicesOf primC6).length,
        writeMap := createIndices (uniqueIndicesOf primC6).length, dst := 0, oob := false } =
      { weldMap := [1, 1, 2], writeMap := [1, 0, 1], dst := 2, oob := false } := by
    rw [hu]
    show weldFold (gridOf primC6 optsW) (weldMatch primC6 optsW) (srcPositionOf primC6)
      (cellSizeOf primC6 optsW) [0, 1, 2]
      { weldMap := [0, 1, 2], writeMap := [0, 1, 2], dst := 0, oob := false } = _
    rw [weldFold_cons, h1, weldFold_cons, h2, weldFold_cons, h3, weldFold_nil]
  simp only [_weldPrimitive]
  rw [hF]
  decide

/-- Evaluation of the welding pass on `primC6` at the larger tolerance 5/64:
the changed grid keys make the two nearby vertices miss each other, so no
merge happens and three output vertices remain. -/
theorem weldRun_C6b :
    _weldPrimitive primC6 optsW2 =
      { uniqueIndices := [0, 1, 2],
        weldMap := [0, 1, 2],
        writeMap := [0, 1, 2],
        dstVertexCount := 3,
        dstIndices := [0, 1, 2],
        primOut := { attributes :=
                       [{ semantic := "POSITION", data := [[1, 0, 0], [7/8, 0, 0], [4, 0, 0]] }],
                     targets := [], indices := some [0, 1, 2], mode := 1 },
        oob := false } := by
  have hu : uniqueIndicesOf primC6 = [0, 1, 2] := by decide
  have h1 : processVertex (gridOf primC6 optsW2) (weldMatch primC6 optsW2)
      (neighborhoodOf (srcPositionOf primC6) (cellSizeOf primC6 optsW2) 0) 0
      { weldMap := [0, 1, 2], writeMap := [0, 1, 2], dst := 0, oob := false } =
      { weldMap := [0, 1, 2], writeMap := [0, 1, 2], dst := 1, oob := false } := by decide
  have h2 : processVertex (gridOf primC6 optsW2) (weldMatch primC6 optsW2)
      (neighborhoodOf (srcPositionOf primC6) (cellSizeOf primC6 optsW2) 1) 1
      { weldMap := [0, 1, 2], writeMap := [0, 1, 2], dst := 1, oob := false } =
      { weldMap := [0, 1, 2], writeMap := [0, 1, 2], dst := 2, oob := false } := by decide
  have h3 : processVertex (gridOf primC6 optsW2) (weldMatch primC6 optsW2)
      (neighborhoodOf (srcPositionOf primC6) (cellSizeOf primC6 optsW2) 2) 2
      { weldMap := [0, 1, 2], writeMap := [0, 1, 2], dst := 2, oob := false } =
      { weldMap := [0, 1, 2], writeMap := [0, 1, 2], dst := 3, oob := false } := by decide
  have hF : weldFold (gridOf primC6 optsW2) (weldMatch primC6 optsW2) (srcPositionOf primC6)
      (cellSizeOf primC6 optsW2) (uniqueIndicesOf primC6)
      { weldMap := createIndices (uniqueIndicesOf primC6).length,
        writeMap := createIndices (uniqueIndicesOf primC6).length, dst := 0, oob := false } =
      { weldMap := [0, 1, 2], writeMap := [0, 1, 2], dst := 3, oob := false } := by
    rw [hu]
    show weldFold (gridOf primC6 optsW2) (weldMatch primC6 optsW2) (srcPositionOf primC6)
      (cellSizeOf primC6 optsW2) [0, 1, 2]
      { weldMap := [0, 1, 2], writeMap := [0, 1, 2], dst := 0, oob := false } = _
    rw [weldFold_cons, h1, weldFold_cons, h2, weldFold_cons, h3, weldFold_nil]
  simp only [_weldPrimitive]
  rw [hF]
  decide

/-- Evaluation of the welding pass on `primC7`: same positions, different
JOINTS_0 values, so neither vertex merges into the other. -/
theorem weldRun_C7 :
    _weldPrimitive primC7 optsW =
      { uniqueIndices := [0, 1],
        weldMap := [0, 1],
        writeMap := [0, 1],
        dstVertexCount := 2,
        dstIndices := [0, 1],
        primOut := { attributes := [{ semantic := "POSITION", data := [[0, 0, 0], [0, 0, 0]] },
                                    { semantic := "JOINTS_0", data := [[1, 0, 0, 0], [2, 0, 0, 0]] }],
                     targets := [], indices := some [0, 1], mode := 1 },
        oob := false } := by
  have hu : uniqueIndicesOf primC7 = [0, 1] := by decide
  have h1 : processVertex (gridOf primC7 optsW) (weldMatch primC7 optsW)
      (neighborhoodOf (srcPositionOf primC7) (cellSizeOf primC7 optsW) 0) 0
      { weldMap := [0, 1], writeMap := [0, 1], dst := 0, oob := false } =
      { weldMap := [0, 1], writeMap := [0, 1], dst := 1, oob := false } := by decide
  have h2 : processVertex (gridOf primC7 optsW) (weldMatch primC7 optsW)
      (neighborhoodOf (srcPositionOf primC7) (cellSizeOf primC7 optsW) 1) 1
      { weldMap := [0, 1], writeMap := [0, 1], dst := 1, oob := false } =
      { weldMap := [0, 1], writeMap := [0, 1], dst := 2, oob := false } := by decide
  have hF : weldFold (gridOf primC7 optsW) (weldMatch primC7 optsW) (srcPositionOf primC7)
      (cellSizeOf primC7 optsW) (uniqueIndicesOf primC7)
      { weldMap := createIndices (uniqueIndicesOf primC7).length,
        writeMap := createIndices (uniqueIndicesOf primC7).length, dst := 0, oob := false } =
      { weldMap := [0, 1], writeMap := [0, 1], dst := 2, oob := false } := by
    rw [hu]
    show weldFold (gridOf primC7 optsW) (weldMatch primC7 optsW) (srcPositionOf primC7)
      (cellSizeOf primC7 optsW) [0, 1]
      { weldMap := [0, 1], writeMap := [0, 1], dst := 0, oob := false } = _
    rw [weldFold_cons, h1, weldFold_cons, h2, weldFold_nil]
  simp only [_weldPrimitive]
  rw [hF]
  decide

/-- Evaluation of the welding pass on the sparse-index `primC10`: processing
unique index 2 reads `weldMap[2]` on a map of length 2, so the out-of-bounds
marker is set. -/
theorem weldRun_C10 :
    _weldPrimitive primC10 optsW =
      { uniqueIndices := [0, 2],
        weldMap := [0, 1],
        writeMap := [0, 1],
        dstVertexCount := 1,
        dstIndices := [0, 0],
        primOut := { attributes := [{ semantic := "POSITION", data := [[0, 0, 0]] }],
                     targets := [], indices := some [0, 0], mode := 1 },
        oob := true } := by
  have hu : uniqueIndicesOf primC10 = [0, 2] := by decide
  have h1 : processVertex (gridOf primC10 optsW) (weldMatch primC10 optsW)
      (neighborhoodOf (srcPositionOf primC10) (cellSizeOf primC10 optsW) 0) 0
      { weldMap := [0, 1], writeMap := [0, 1], dst := 0, oob := false } =
      { weldMap := [0, 1], writeMap := [0, 1], dst := 1, oob := false } := by decide
  have h2 : processVertex (gridOf primC10 optsW) (weldMatch primC10 optsW)
      (neighborhoodOf (srcPositionOf primC10) (cellSizeOf primC10 optsW) 2) 2
      { weldMap := [0, 1], writeMap := [0, 1], dst := 1, oob := false } =
      { weldMap := [0, 1], writeMap := [0, 1], dst := 1, oob := true } := by decide
  have hF : weldFold (gridOf primC10 optsW) (weldMatch primC10 optsW) (srcPositionOf primC10)
      (cellSizeOf primC10 optsW) (uniqueIndicesOf primC10)
      { weldMap := createIndices (uniqueIndicesOf primC10).length,
        writeMap := createIndices (uniqueIndicesOf primC10).length, dst := 0, oob := false } =
      { weldMap := [0, 1], writeMap := [0, 1], dst := 1, oob := true } := by
    rw [hu]
    show weldFold (gridOf primC10 optsW) (weldMatch primC10 optsW) (srcPositionOf primC10)
      (cellSizeOf primC10 optsW) [0, 2]
      { weldMap := [0, 1], writeMap := [0, 1], dst := 0, oob := false } = _
    rw [weldFold_cons, h1, weldFold_cons, h2, weldFold_nil]
  simp only [_weldPrimitive]
  rw [hF]
  decide

/- List access helpers. -/

theorem getD_set_self (l : List ℕ) (i v : ℕ) (h : i < l.length) :
    (l.set i v).getD i 0 = v := by
  simp [List.getD_eq_getElem?_getD, List.getElem?_set_self, h]

theorem getD_set_ne (l : List ℕ) (i j v : ℕ) (h : i ≠ j) :
    (l.set i v).getD j 0 = l.getD j 0 := by
  simp [List.getD_eq_getElem?_getD, List.getElem?_set_ne, h]

theorem getD_createIndices (n i : ℕ) (h : i < n) : (createIndices n).getD i 0 = i := by
  simp [createIndices, List.getD_eq_getElem?_getD, List.getElem?_range, h]

/- First-occurrence deduplication: order, completeness, distinctness. -/

theorem setDedupGo_sublist (l : List ℕ) : ∀ seen, (setDedupGo seen l).Sublist l := by
  induction l with
  | nil => intro seen; simp [setDedupGo]
  | cons x xs ih =>
    intro seen
    simp only [setDedupGo]
    by_cases h : x ∈ seen
    · simp only [if_pos h]
      exact (ih seen).cons x
    · simp only [if_neg h]
      exact (ih (x :: seen)).cons₂ x

theorem mem_setDedupGo (l : List ℕ) :
    ∀ seen v, v ∈ setDedupGo seen l ↔ v ∈ l ∧ v ∉ seen := by
  induction l with
  | nil => intro seen v; simp [setDedupGo]
  | cons x xs ih =>
    intro seen v
    simp only [setDedupGo]
    by_cases h : x ∈ seen
    · rw [if_pos h, ih]
      constructor
      · rintro ⟨hv, hs⟩
        exact ⟨List.mem_cons_of_mem x hv, hs⟩
      · rintro ⟨hv, hs⟩
        rcases List.mem_cons.mp hv with rfl | hv
        · exact absurd h hs
        · exact ⟨hv, hs⟩
    · rw [if_neg h]
      constructor
      · intro hv
        rcases List.mem_cons.mp hv with rfl | hv
        · exact ⟨List.mem_cons_self _ _, h⟩
        · rcases (ih (x :: seen) v).mp hv with ⟨h1, h2⟩
          refine ⟨List.mem_cons_of_mem x h1, fun hs => h2 (List.mem_cons_of_mem x hs)⟩
      · rintro ⟨hv, hs⟩
        rcases List.mem_cons.mp hv with rfl | hv
        · exact List.mem_cons_self _ _
        · by_cases hvx : v = x
          · subst hvx; exact List.mem_cons_self _ _
          · refine List.mem_cons_of_mem x ((ih (x :: seen) v).mpr ⟨hv, ?_⟩)
            intro hmem
            rcases List.mem_cons.mp hmem with h1 | h1
            · exact hvx h1
            · exact hs h1

theorem setDedupGo_nodup (l : List ℕ) : ∀ seen, (setDedupGo seen l).Nodup := by
  induction l with
  | nil => intro seen; simp [setDedupGo]
  | cons x xs ih =>
    intro seen
    simp only [setDedupGo]
    by_cases h : x ∈ seen
    · rw [if_pos h]; exact ih seen
    · rw [if_neg h]
      refine List.nodup_cons.mpr ⟨fun hmem => ?_, ih (x :: seen)⟩
      exact ((mem_setDedupGo xs (x :: seen) x).mp hmem).2 (List.mem_cons_self x seen)

theorem setDedup_nodup (l : List ℕ) : (setDedup l).Nodup := setDedupGo_nodup l []

theorem setDedup_sublist (l : List ℕ) : (setDedup l).Sublist l := setDedupGo_sublist l []

theorem mem_setDedup (l : List ℕ) (v : ℕ) : v ∈ setDedup l ↔ v ∈ l := by
  rw [setDedup, mem_setDedupGo]
  simp

/- Projections of one cell scan and of one processed vertex. -/

theorem scanCell_weldMap (m : ℕ → ℕ → Bool) (a : ℕ) (cands : List ℕ) :
    ∀ st : WeldState,
      (scanCell m a st cands).weldMap =
        match cands.find? (fun j => m a (st.weldMap.getD j 0)) with
        | some j => st.weldMap.set a (st.weldMap.getD j 0)
        | none => st.weldMap := by
  induction cands with
  | nil => intro st; rfl
  | cons j rest ih =>
    intro st
    simp only [scanCell, mread, mwrite]
    by_cases h : m a (st.weldMap.getD j 0) = true
    · have hf : List.find? (fun j2 => m a (st.weldMap.getD j2 0)) (j :: rest) = some j :=
        List.find?_cons_of_pos rest (by simpa using h)
      rw [hf, if_pos h]
    · have hf : List.find? (fun j2 => m a (st.weldMap.getD j2 0)) (j :: rest) =
          List.find? (fun j2 => m a (st.weldMap.getD j2 0)) rest :=
        List.find?_cons_of_neg rest (by simpa using h)
      rw [hf, if_neg h]
      exact ih _

theorem scanCell_writeMap (m : ℕ → ℕ → Bool) (a : ℕ) (cands : List ℕ) :
    ∀ st : WeldState, (scanCell m a st cands).writeMap = st.writeMap := by
  induction cands with
  | nil => intro st; rfl
  | cons j rest ih =>
    intro st
    simp only [scanCell, mread, mwrite]
    by_cases h : m a (st.weldMap.getD j 0) = true
    · rw [if_pos h]
    · rw [if_neg h]
      exact ih _

theorem scanCell_dst (m : ℕ → ℕ → Bool) (a : ℕ) (cands : List ℕ) :
    ∀ st : WeldState, (scanCell m a st cands).dst = st.dst := by
  induction cands with
  | nil => intro st; rfl
  | cons j rest ih =>
    intro st
    simp only [scanCell, mread, mwrite]
    by_cases h : m a (st.weldMap.getD j 0) = true
    · rw [if_pos h]
    · rw [if_neg h]
      exact ih _

theorem scanCell_oob_mono (m : ℕ → ℕ → Bool) (a : ℕ) (cands : List ℕ) :
    ∀ st : WeldState, st.oob = true → (scanCell m a st cands).oob = true := by
  induction cands with
  | nil => intro st h; exact h
  | cons j rest ih =>
    intro st h
    simp only [scanCell, mread, mwrite]
    by_cases hm : m a (st.weldMap.getD j 0) = true
    · rw [if_pos hm]
      simp [h]
    · rw [if_neg hm]
      exact ih _ (by simp [h])

theorem cellScanSpec_length (g : Grid) (m : ℕ → ℕ → Bool) (a : ℕ) (wm : List ℕ)
    (key : GridKey) : (cellScanSpec g m a wm key).length = wm.length := by
  unfold cellScanSpec
  split <;> simp

theorem foldl_cellScanSpec_length (g : Grid) (m : ℕ → ℕ → Bool) (a : ℕ)
    (keys : List GridKey) : ∀ wm : List ℕ,
    (keys.foldl (cellScanSpec g m a) wm).length = wm.length := by
  induction keys with
  | nil => intro wm; rfl
  | cons k rest ih =>
    intro wm
    simp only [List.foldl_cons]
    rw [ih, cellScanSpec_length]

theorem cellsFold_weldMap (g : Grid) (m : ℕ → ℕ → Bool) (a : ℕ) (keys : List GridKey) :
    ∀ st : WeldState,
      (keys.foldl (fun s key => scanCell m a s (g key)) st).weldMap =
        keys.foldl (cellScanSpec g m a) st.weldMap := by
  induction keys with
  | nil => intro st; rfl
  | cons k rest ih =>
    intro st
    simp only [List.foldl_cons]
    rw [ih]
    congr 1
    rw [scanCell_weldMap]
    rfl

theorem cellsFold_writeMap (g : Grid) (m : ℕ → ℕ → Bool) (a : ℕ) (keys : List GridKey) :
    ∀ st : WeldState,
      (keys.foldl (fun s key => scanCell m a s (g key)) st).writeMap = st.writeMap := by
  induction keys with
  | nil => intro st; rfl
  | cons k rest ih =>
    intro st
    simp only [List.foldl_cons]
    rw [ih, scanCell_writeMap]

theorem cellsFold_dst (g : Grid) (m : ℕ → ℕ → Bool) (a : ℕ) (keys : List GridKey) :
    ∀ st : WeldState,
      (keys.foldl (fun s key => scanCell m a s (g key)) st).dst = st.dst := by
  induction keys with
  | nil => intro st; rfl
  | cons k rest ih =>
    intro st
    simp only [List.foldl_cons]
    rw [ih, scanCell_dst]

theorem cellsFold_oob_mono (g : Grid) (m : ℕ → ℕ → Bool) (a : ℕ) (keys : List GridKey) :
    ∀ st : WeldState, st.oob = true →
      (keys.foldl (fun s key => scanCell m a s (g key)) st).oob = true := by
  induction keys with
  | nil => intro st h; exact h
  | cons k rest ih =>
    intro st h
    simp only [List.foldl_cons]
    exact ih _ (scanCell_oob_mono m a (g k) st h)

theorem processVertex_weldMap (g : Grid) (m : ℕ → ℕ → Bool) (keys : List GridKey)
    (a : ℕ) (st : WeldState) :
    (processVertex g m keys a st).weldMap = keys.foldl (cellScanSpec g m a) st.weldMap := by
  simp only [processVertex]
  split
  · exact cellsFold_weldMap g m a keys st
  · exact cellsFold_weldMap g m a keys st

theorem processVertex_weldMap_length (g : Grid) (m : ℕ → ℕ → Bool) (keys : List GridKey)
    (a : ℕ) (st : WeldState) :
    (processVertex g m keys a st).weldMap.length = st.weldMap.length := by
  rw [processVertex_weldMap, foldl_cellScanSpec_length]

theorem processVertex_writeMap_length (g : Grid) (m : ℕ → ℕ → Bool) (keys : List GridKey)
    (a : ℕ) (st : WeldState) :
    (processVertex g m keys a st).writeMap.length = st.writeMap.length := by
  simp only [processVertex]
  split <;> simp [mwrite, cellsFold_writeMap]

theorem processVertex_dst_le (g : Grid) (m : ℕ → ℕ → Bool) (keys : List GridKey)
    (a : ℕ) (st : WeldState) :
    (processVertex g m keys a st).dst ≤ st.dst + 1 := by
  simp only [processVertex]
  split
  · simp [cellsFold_dst]
  · simp [cellsFold_dst]

theorem processVertex_oob_mono (g : Grid) (m : ℕ → ℕ → Bool) (keys : List GridKey)
    (a : ℕ) (st : WeldState) (h : st.oob = true) :
    (processVertex g m keys a st).oob = true := by
  simp only [processVertex]
  split <;> simp [cellsFold_oob_mono g m a keys st h]

theorem processVertex_oob_of_oversized (g : Grid) (m : ℕ → ℕ → Bool) (keys : List GridKey)
    (a : ℕ) (st : WeldState) (h : ¬ a < st.weldMap.length) :
    (processVertex g m keys a st).oob = true := by
  have hL : (keys.foldl (fun s key => scanCell m a s (g key)) st).weldMap.length =
      st.weldMap.length := by
    rw [cellsFold_weldMap, foldl_cellScanSpec_length]
  simp only [processVertex]
  split
  · rename_i hcond
    exact absurd hcond (by simp [mread, hL, h])
  · simp [mread, hL, h]

theorem processVertex_newslot (g : Grid) (m : ℕ → ℕ → Bool) (keys : List GridKey)
    (a : ℕ) (st : WeldState) (hlen : a < st.weldMap.length)
    (hself : (keys.foldl (cellScanSpec g m a) st.weldMap).getD a 0 = a) :
    (processVertex g m keys a st).dst = st.dst + 1 ∧
    (processVertex g m keys a st).writeMap = st.writeMap.set a st.dst := by
  have h1 : (keys.foldl (fun s key => scanCell m a s (g key)) st).weldMap =
      keys.foldl (cellScanSpec g m a) st.weldMap := cellsFold_weldMap g m a keys st
  have hL : (keys.foldl (fun s key => scanCell m a s (g key)) st).weldMap.length =
      st.weldMap.length := by rw [h1, foldl_cellScanSpec_length]
  simp only [processVertex]
  rw [if_pos ⟨by simp [mread, hL, hlen], by simp only [mread]; rw [h1]; exact hself⟩]
  refine ⟨by simp [cellsFold_dst], ?_⟩
  simp [mwrite, cellsFold_writeMap, cellsFold_dst]

/- The weld-map invariant: entries are identity or matched values. -/

theorem cellScanSpec_WMInv (g : Grid) (m : ℕ → ℕ → Bool) (a : ℕ) (wm : List ℕ)
    (key : GridKey) (h : WMInv m wm) : WMInv m (cellScanSpec g m a wm key) := by
  unfold cellScanSpec
  cases hf : (g key).find? (fun j => m a (wm.getD j 0)) with
  | none => exact h
  | some j =>
    show WMInv m (wm.set a (wm.getD j 0))
    have hm : m a (wm.getD j 0) = true := by simpa using List.find?_some hf
    by_cases ha : a < wm.length
    · intro i hi
      rw [List.length_set] at hi
      by_cases hia : i = a
      · subst hia
        rw [getD_set_self _ _ _ ha]
        exact Or.inr hm
      · rw [getD_set_ne _ _ _ _ (fun e => hia e.symm)]
        exact h i hi
    · have hset : wm.set a (wm.getD j 0) = wm :=
        List.set_eq_of_length_le (Nat.le_of_not_lt ha)
      rw [hset]
      exact h

theorem foldl_cellScanSpec_WMInv (g : Grid) (m : ℕ → ℕ → Bool) (a : ℕ)
    (keys : List GridKey) : ∀ wm : List ℕ, WMInv m wm →
      WMInv m (keys.foldl (cellScanSpec g m a) wm) := by
  induction keys with
  | nil => intro wm h; exact h
  | cons k rest ih =>
    intro wm h
    simp only [List.foldl_cons]
    exact ih _ (cellScanSpec_WMInv g m a wm k h)

theorem processVertex_WMInv (g : Grid) (m : ℕ → ℕ → Bool) (keys : List GridKey)
    (a : ℕ) (st : WeldState) (h : WMInv m st.weldMap) :
    WMInv m (processVertex g m keys a st).weldMap := by
  rw [processVertex_weldMap]
  exact foldl_cellScanSpec_WMInv g m a keys st.weldMap h

theorem weldFold_WMInv (g : Grid) (m : ℕ → ℕ → Bool) (pos : Attr) (cs : ℚ)
    (l : List ℕ) : ∀ st : WeldState, WMInv m st.weldMap →
      WMInv m (weldFold g m pos cs l st).weldMap := by
  induction l with
  | nil => intro st h; exact h
  | cons a rest ih =>
    intro st h
    rw [weldFold_cons]
    exact ih _ (processVertex_WMInv g m (neighborhoodOf pos cs a) a st h)

theorem WMInv_createIndices (m : ℕ → ℕ → Bool) (n : ℕ) : WMInv m (createIndices n) := by
  intro i hi
  rw [createIndices, List.length_range] at hi
  exact Or.inl (getD_createIndices n i hi)

/-- Every entry of the final weld map is either its own index or a value that
its index matched against (the match predicate being fixed attribute data,
this holds whatever the processing order did). -/
theorem weldMap_invariant (p : Prim) (o : ResolvedOptions) :
    ∀ i, i < (_weldPrimitive p o).weldMap.length →
      (_weldPrimitive p o).weldMap.getD i 0 = i ∨
        weldMatch p o i ((_weldPrimitive p o).weldMap.getD i 0) = true := by
  have h : (_weldPrimitive p o).weldMap =
      (weldFold (gridOf p o) (weldMatch p o) (srcPositionOf p) (cellSizeOf p o)
        (uniqueIndicesOf p)
        { weldMap := createIndices (uniqueIndicesOf p).length,
          writeMap := createIndices (uniqueIndicesOf p).length,
          dst := 0, oob := false }).weldMap := rfl
  rw [h]
  exact weldFold_WMInv (gridOf p o) (weldMatch p o) (srcPositionOf p) (cellSizeOf p o)
    (uniqueIndicesOf p) _ (WMInv_createIndices (weldMatch p o) (uniqueIndicesOf p).length)

/- Whole-pass fold lemmas. -/

theorem weldFold_weldMap_length (g : Grid) (m : ℕ → ℕ → Bool) (pos : Attr) (cs : ℚ)
    (l : List ℕ) : ∀ st : WeldState,
    (weldFold g m pos cs l st).weldMap.length = st.weldMap.length := by
  induction l with
  | nil => intro st; rfl
  | cons a rest ih =>
    intro st
    rw [weldFold_cons, ih, processVertex_weldMap_length]

theorem weldFold_writeMap_length (g : Grid) (m : ℕ → ℕ → Bool) (pos : Attr) (cs : ℚ)
    (l : List ℕ) : ∀ st : WeldState,
    (weldFold g m pos cs l st).writeMap.length = st.writeMap.length := by
  induction l with
  | nil => intro st; rfl
  | cons a rest ih =>
    intro st
    rw [weldFold_cons, ih, processVertex_writeMap_length]

theorem weldFold_dst_le (g : Grid) (m : ℕ → ℕ → Bool) (pos : Attr) (cs : ℚ)
    (l : List ℕ) : ∀ st : WeldState,
    (weldFold g m pos cs l st).dst ≤ st.dst + l.length := by
  induction l with
  | nil => intro st; simp [weldFold_nil]
  | cons a rest ih =>
    intro st
    rw [weldFold_cons]
    have h1 := ih (processVertex g m (neighborhoodOf pos cs a) a st)
    have h2 := processVertex_dst_le g m (neighborhoodOf pos cs a) a st
    simp only [List.length_cons]
    omega

theorem weldFold_oob_mono (g : Grid) (m : ℕ → ℕ → Bool) (pos : Attr) (cs : ℚ)
    (l : List ℕ) : ∀ st : WeldState, st.oob = true →
    (weldFold g m pos cs l st).oob = true := by
  induction l with
  | nil => intro st h; exact h
  | cons a rest ih =>
    intro st h
    rw [weldFold_cons]
    exact ih _ (processVertex_oob_mono g m (neighborhoodOf pos cs a) a st h)

theorem weldFold_oob_of_mem (g : Grid) (m : ℕ → ℕ → Bool) (pos : Attr) (cs : ℚ)
    (l : List ℕ) (a : ℕ) : ∀ st : WeldState, a ∈ l → ¬ a < st.weldMap.length →
    (weldFold g m pos cs l st).oob = true := by
  induction l with
  | nil => intro st h; simp at h
  | cons b rest ih =>
    intro st hmem hlt
    rw [weldFold_cons]
    rcases List.mem_cons.mp hmem with rfl | hmem
    · exact weldFold_oob_mono g m pos cs rest _
        (processVertex_oob_of_oversized g m (neighborhoodOf pos cs a) a st hlt)
    · exact ih _ hmem (by rw [processVertex_weldMap_length]; exact hlt)

/- Grid buckets only hold inserted vertices. -/

theorem mem_foldl_gridInsert (keyOf : ℕ → GridKey) (l : List ℕ) :
    ∀ (g : Grid) (k : GridKey) (v : ℕ),
      v ∈ (l.foldl (fun g2 i => gridInsert g2 (keyOf i) i) g) k → v ∈ g k ∨ v ∈ l := by
  induction l with
  | nil => intro g k v h; exact Or.inl h
  | cons i rest ih =>
    intro g k v h
    simp only [List.foldl_cons] at h
    rcases ih _ k v h with h2 | h2
    · unfold gridInsert at h2
      by_cases hk : k = keyOf i
      · rw [if_pos hk] at h2
        rcases List.mem_append.mp h2 with h3 | h3
        · exact Or.inl (by rw [hk]; exact h3)
        · rcases List.mem_singleton.mp h3 with rfl
          exact Or.inr (List.mem_cons_self _ _)
      · rw [if_neg hk] at h2
        exact Or.inl h2
    · exact Or.inr (List.mem_cons_of_mem _ h2)

theorem mem_buildGrid (pos : Attr) (uniq : List ℕ) (cs : ℚ) (k : GridKey) (v : ℕ)
    (h : v ∈ buildGrid pos uniq cs k) : v ∈ uniq := by
  unfold buildGrid at h
  rcases mem_foldl_gridInsert _ uniq gridEmpty k v h with h2 | h2
  · simp [gridEmpty] at h2
  · exact h2

/- The C10 in-bounds invariant chain. -/

theorem scanCell_MapsGood (n : ℕ) (m : ℕ → ℕ → Bool) (a : ℕ) (cands : List ℕ) :
    ∀ st : WeldState, MapsGood n st → a < n → (∀ j ∈ cands, j < n) →
      MapsGood n (scanCell m a st cands) := by
  induction cands with
  | nil => intro st hg _ _; exact hg
  | cons j rest ih =>
    intro st hg ha hc
    obtain ⟨hwl, hrl, hent, hoob⟩ := hg
    have hj : j < n := hc j (List.mem_cons_self _ _)
    simp only [scanCell, mread, mwrite]
    by_cases hm : m a (st.weldMap.getD j 0) = true
    · rw [if_pos hm]
      refine ⟨by simp [hwl], hrl, ?_, ?_⟩
      · intro i hi
        by_cases hia : i = a
        · subst hia
          rw [getD_set_self _ _ _ (by rw [hwl]; exact ha)]
          exact hent j hj
        · rw [getD_set_ne _ _ _ _ (fun e => hia e.symm)]
          exact hent i hi
      · simp [hoob, hwl, hj, ha]
    · rw [if_neg hm]
      exact ih _ ⟨hwl, hrl, hent, by simp [hoob, hwl, hj]⟩ ha
        (fun j2 hj2 => hc j2 (List.mem_cons_of_mem _ hj2))

theorem cellsFold_MapsGood (n : ℕ) (g : Grid) (m : ℕ → ℕ → Bool) (a : ℕ)
    (keys : List GridKey) : ∀ st : WeldState, MapsGood n st → a < n →
      (∀ k v, v ∈ g k → v < n) →
      MapsGood n (keys.foldl (fun s key => scanCell m a s (g key)) st) := by
  induction keys with
  | nil => intro st hg _ _; exact hg
  | cons k rest ih =>
    intro st hg ha hgrid
    simp only [List.foldl_cons]
    exact ih _ (scanCell_MapsGood n m a (g k) st hg ha (fun v hv => hgrid k v hv)) ha hgrid

theorem processVertex_MapsGood (n : ℕ) (g : Grid) (m : ℕ → ℕ → Bool)
    (keys : List GridKey) (a : ℕ) (st : WeldState) (hg : MapsGood n st) (ha : a < n)
    (hgrid : ∀ k v, v ∈ g k → v < n) :
    MapsGood n (processVertex g m keys a st) := by
  have hst1 := cellsFold_MapsGood n g m a keys st hg ha hgrid
  obtain ⟨hwl, hrl, hent, hoob⟩ := hst1
  simp only [processVertex]
  split
  · refine ⟨hwl, by simp [mwrite, hrl], hent, ?_⟩
    simp [mread, mwrite, hoob, hwl, hrl, ha]
  · have hb : a < (keys.foldl (fun s key => scanCell m a s (g key)) st).weldMap.length := by
      rw [hwl]; exact ha
    have hval : (keys.foldl (fun s key => scanCell m a s (g key)) st).weldMap.getD a 0 < n :=
      hent a ha
    rw [List.getD_eq_getElem _ _ hb] at hval
    refine ⟨hwl, by simp [mwrite, hrl], hent, ?_⟩
    simp [mread, mwrite, hoob, hwl, hrl, ha, hval]

theorem weldFold_MapsGood (n : ℕ) (g : Grid) (m : ℕ → ℕ → Bool) (pos : Attr) (cs : ℚ)
    (l : List ℕ) : ∀ st : WeldState, MapsGood n st → (∀ a ∈ l, a < n) →
      (∀ k v, v ∈ g k → v < n) → MapsGood n (weldFold g m pos cs l st) := by
  induction l with
  | nil => intro st hg _ _; exact hg
  | cons a rest ih =>
    intro st hg hl hgrid
    rw [weldFold_cons]
    exact ih _
      (processVertex_MapsGood n g m (neighborhoodOf pos cs a) a st hg
        (hl a (List.mem_cons_self _ _)) hgrid)
      (fun b hb => hl b (List.mem_cons_of_mem _ hb)) hgrid

/- Projections of `_weldPrimitive` (all definitional). -/

theorem _weldPrimitive_uniqueIndices (p : Prim) (o : ResolvedOptions) :
    (_weldPrimitive p o).uniqueIndices = uniqueIndicesOf p := rfl

theorem _weldPrimitive_weldMap (p : Prim) (o : ResolvedOptions) :
    (_weldPrimitive p o).weldMap = (weldFoldResult p o).weldMap := rfl

theorem _weldPrimitive_dst (p : Prim) (o : ResolvedOptions) :
    (_weldPrimitive p o).dstVertexCount = (weldFoldResult p o).dst := rfl

theorem _weldPrimitive_oob (p : Prim) (o : ResolvedOptions) :
    (_weldPrimitive p o).oob =
      ((weldFoldResult p o).oob ||
        ((srcIndicesOf p).map (fun i => mread (weldFoldResult p o).writeMap i)).any
          Prod.snd) := rfl

/- Character-level facts about `String.startsWith`, needed to separate the
semantic prefixes in `getAttributeTolerance`. -/

theorem isPrefixOf_head (c : Char) (t l : List Char)
    (h : List.isPrefixOf (c :: t) l = true) : l.head? = some c := by
  cases l with
  | nil => simp [List.isPrefixOf] at h
  | cons b bs =>
    simp only [List.isPrefixOf, Bool.and_eq_true, beq_iff_eq] at h
    rw [List.head?_cons, h.1]

theorem jsStartsWith_head_eq (s p1 p2 : String) (c1 c2 : Char)
    (h1 : jsStartsWith s p1 = true) (h2 : jsStartsWith s p2 = true)
    (e1 : p1.data.head? = some c1) (e2 : p2.data.head? = some c2) : c1 = c2 := by
  unfold jsStartsWith at h1 h2
  cases hp1 : p1.data with
  | nil => rw [hp1] at e1; simp at e1
  | cons a t =>
    rw [hp1] at h1 e1
    cases hp2 : p2.data with
    | nil => rw [hp2] at e2; simp at e2
    | cons b u =>
      rw [hp2] at h2 e2
      have ha := isPrefixOf_head a t s.data h1
      have hb := isPrefixOf_head b u s.data h2
      have hab : a = b := Option.some.inj (ha.symm.trans hb)
      rw [List.head?_cons] at e1 e2
      have hac : a = c1 := Option.some.inj e1
      have hbc : b = c2 := Option.some.inj e2
      rw [← hac, ← hbc, hab]

theorem getAttributeTolerance_joints (sem : String) (attr : Attr) (t : ℚ)
    (h : jsStartsWith sem ("JOINTS_") = true) : getAttributeTolerance sem attr t = 0 := by
  have hJ : ("JOINTS_").data.head? = some 'J' := by decide
  have h1 : ¬ (sem = "NORMAL" ∨ sem = "TANGENT") := by
    rintro (rfl | rfl)
    · exact absurd h (by decide)
    · exact absurd h (by decide)
  have h2 : jsStartsWith sem ("COLOR_") = false := by
    cases hcb : jsStartsWith sem ("COLOR_")
    · rfl
    · exact absurd (jsStartsWith_head_eq sem _ _ 'J' 'C' h hcb hJ (by decide)) (by decide)
  have h3 : jsStartsWith sem ("TEXCOORD_") = false := by
    cases hcb : jsStartsWith sem ("TEXCOORD_")
    · rfl
    · exact absurd (jsStartsWith_head_eq sem _ _ 'J' 'T' h hcb hJ (by decide)) (by decide)
  unfold getAttributeTolerance
  rw [if_neg h1, if_neg (by simp [h2]), if_neg (by simp [h3]), if_pos (by simp [h])]
  rfl

theorem weldTolMap_joints (p : Prim) (o : ResolvedOptions) (attr : Attr)
    (hfind : p.getAttribute attr.semantic = some attr)
    (hj : jsStartsWith attr.semantic ("JOINTS_") = true) :
    weldTolMap p o attr.semantic = some 0 := by
  have hmem : attr ∈ p.attributes := List.mem_of_find?_eq_some hfind
  have hsem : attr.semantic ∈ p.listSemantics := List.mem_map.mpr ⟨attr, hmem, rfl⟩
  unfold weldTolMap attributeToleranceMap
  rw [if_pos (by simpa using hsem), hfind]
  show some (getAttributeTolerance attr.semantic attr (weldTolerance o)) = some 0
  rw [getAttributeTolerance_joints _ _ _ hj]

theorem weldMatch_joints_component (p : Prim) (o : ResolvedOptions) (attr : Attr)
    (v w k : ℕ) (hfind : p.getAttribute attr.semantic = some attr)
    (hj : jsStartsWith attr.semantic ("JOINTS_") = true) (hk : k < attr.elementSize)
    (hm : weldMatch p o v w = true) :
    (attr.getElement v).getD k 0 = (attr.getElement w).getD k 0 := by
  have hmem : attr ∈ p.attributes := List.mem_of_find?_eq_some hfind
  have hsem : attr.semantic ∈ p.listSemantics := List.mem_map.mpr ⟨attr, hmem, rfl⟩
  have hbase : isBaseMatch p (weldTolMap p o) v w = true := by
    unfold weldMatch isMatch at hm
    simp only [Bool.and_eq_true] at hm
    exact hm.1
  unfold isBaseMatch at hbase
  have hall := (List.all_eq_true.mp hbase) attr.semantic hsem
  rw [hfind] at hall
  rw [weldTolMap_joints p o attr hfind hj] at hall
  unfold compareAttributes at hall
  have hcomp := (List.all_eq_true.mp hall) k (List.mem_range.mpr hk)
  simpa [abs_nonpos_iff, sub_eq_zero] using hcomp

/- ===================== Claim theorems ===================== -/

/-- C1 counterexample.  On `primC1` (positions x = 1.125, 1.0, 1.25, 4.0 and
index buffer [1, 0, 2, 3], tolerance 1/16) the claim fails in three ways:
the matcher processes unique indices in first-occurrence order [1, 0, 2, 3],
not ascending order; `weldMap[1] = 0` although vertex 0 is processed after
vertex 1 (the grid holds all unique vertices up front); and the finished map
is not idempotent: `weldMap[weldMap[1]] = weldMap[0] = 2 ≠ 0 = weldMap[1]`,
because the canonical representative 0 was itself merged into 2 later in the
same pass. -/
theorem C1_counterexample :
    (_weldPrimitive primC1 optsW).uniqueIndices = [1, 0, 2, 3] ∧
    ¬ List.Sorted (· ≤ ·) (_weldPrimitive primC1 optsW).uniqueIndices ∧
    (_weldPrimitive primC1 optsW).weldMap.getD 1 0 = 0 ∧
    (_weldPrimitive primC1 optsW).weldMap.getD
        ((_weldPrimitive primC1 optsW).weldMap.getD 1 0) 0 ≠
      (_weldPrimitive primC1 optsW).weldMap.getD 1 0 := by
  rw [weldRun_C1]
  refine ⟨rfl, ?_, rfl, ?_⟩
  · decide
  · decide

/-- C1 amended.  The matcher processes the distinct index values in
first-occurrence order of the index buffer (a deduplicated subsequence with
the same members); and every finished weld-map entry is either its own index
or a value all of whose attributes matched that index within tolerance —
possibly a vertex processed later, so neither the previously-processed claim
nor idempotence holds. -/
theorem C1_amended (p : Prim) (o : ResolvedOptions) :
    (_weldPrimitive p o).uniqueIndices.Nodup ∧
    (_weldPrimitive p o).uniqueIndices.Sublist (srcIndicesOf p) ∧
    (∀ v, v ∈ (_weldPrimitive p o).uniqueIndices ↔ v ∈ srcIndicesOf p) ∧
    (∀ i, i < (_weldPrimitive p o).weldMap.length →
      (_weldPrimitive p o).weldMap.getD i 0 = i ∨
        weldMatch p o i ((_weldPrimitive p o).weldMap.getD i 0) = true) := by
  rw [_weldPrimitive_uniqueIndices]
  exact ⟨setDedup_nodup _, setDedup_sublist _, mem_setDedup _, weldMap_invariant p o⟩

/-- C1 amended, witness at `primC1`, entry 0. -/
theorem C1_amended_witness :
    (_weldPrimitive primC1 optsW).weldMap.getD 0 0 = 0 ∨
      weldMatch primC1 optsW 0 ((_weldPrimitive primC1 optsW).weldMap.getD 0 0) = true :=
  (C1_amended primC1 optsW).2.2.2 0 (by rw [weldRun_C1]; decide)

/-- C2 counterexample.  On `primC2` (positions x = 1.0, 0.875, 1.125, 4.0,
indices [0, 1, 2, 3], tolerance 1/16) the first matching candidate for
vertex 0 is vertex 1 (cell of x = 0.875, reached with the i = -1 neighbor
offset), so under the claimed stop-at-first-match semantics `weldMap[0]`
would be 1; the code examines the remaining neighbor cells after the inner
`break` and overwrites the entry with 2, the first match of the last
matching cell. -/
theorem C2_counterexample :
    weldMapFirstStop primC2 optsW = [1, 1, 1, 3] ∧
    (_weldPrimitive primC2 optsW).weldMap = [2, 2, 2, 3] ∧
    (_weldPrimitive primC2 optsW).weldMap.getD 0 0 ≠
      (weldMapFirstStop primC2 optsW).getD 0 0 := by
  rw [weldRun_C2, firstStopRun_C2]
  exact ⟨rfl, rfl, by decide⟩

/-- C2 amended.  The search stops at the first matching candidate within
each neighbor cell but continues across the remaining cells: the weld-map
row of a processed vertex is the fold, over the 27 neighbor keys, of
"first match in this bucket wins, else keep"; and when after all cells
`weldMap[a]` still equals `a`, the vertex receives the next compacted output
slot exactly as the claim's final sentence says. -/
theorem C2_amended (g : Grid) (m : ℕ → ℕ → Bool) (keys : List GridKey) (a : ℕ)
    (st : WeldState) :
    (processVertex g m keys a st).weldMap = keys.foldl (cellScanSpec g m a) st.weldMap ∧
    (a < st.weldMap.length →
      (keys.foldl (cellScanSpec g m a) st.weldMap).getD a 0 = a →
      (processVertex g m keys a st).dst = st.dst + 1 ∧
      (processVertex g m keys a st).writeMap = st.writeMap.set a st.dst) :=
  ⟨processVertex_weldMap g m keys a st,
   fun h1 h2 => processVertex_newslot g m keys a st h1 h2⟩

/-- C2 amended, witness: an isolated vertex keeps its own slot and takes the
next compacted index. -/
theorem C2_amended_witness :
    (processVertex gridEmpty (fun _ _ => false) [] 0
        { weldMap := [0], writeMap := [0], dst := 0, oob := false }).dst = 0 + 1 ∧
    (processVertex gridEmpty (fun _ _ => false) [] 0
        { weldMap := [0], writeMap := [0], dst := 0, oob := false }).writeMap =
      ([0] : List ℕ).set 0 0 :=
  (C2_amended gridEmpty (fun _ _ => false) [] 0
    { weldMap := [0], writeMap := [0], dst := 0, oob := false }).2 (by decide) (by decide)

/-- C3, evaluation at the failing input.  Welding `primC1` (tolerance 1/16)
keeps the index-buffer length at 4 and reaches `dstVertexCount = 2`, but the
rewritten index buffer is [0, 2, 0, 1], whose value 2 is outside
`[0, dstVertexCount)` — vertex 0 was merged into the then-unprocessed vertex
2, so `writeMap[0]` was copied from `writeMap[2]` while that slot still held
its identity placeholder. -/
theorem C3_out_of_range_index :
    (_weldPrimitive primC1 optsW).dstIndices.length = 4 ∧
    (_weldPrimitive primC1 optsW).dstIndices = [0, 2, 0, 1] ∧
    (_weldPrimitive primC1 optsW).dstVertexCount = 2 ∧
    ¬ ∀ v ∈ (_weldPrimitive primC1 optsW).dstIndices,
        v < (_weldPrimitive primC1 optsW).dstVertexCount := by
  rw [weldRun_C1]
  refine ⟨rfl, rfl, rfl, ?_⟩
  decide

/-- C6 counterexample.  On `primC6` (positions x = 1.0, 0.875, 4.0, indices
[0, 1, 2]) the tolerances 1/16 ≤ 5/64, both inside (0, 0.1], give
`dstVertexCount` 2 and 3 respectively: raising the tolerance enlarged the
grid cells so that the two nearby vertices hash to cells outside each
other's neighborhood key set, the merge is lost, and the compacted vertex
count increases. -/
theorem C6_counterexample :
    (0 : ℚ) < optsW.tolerance ∧ optsW.tolerance ≤ optsW2.tolerance ∧
    optsW2.tolerance ≤ 1 / 10 ∧
    (_weldPrimitive primC6 optsW).dstVertexCount = 2 ∧
    (_weldPrimitive primC6 optsW2).dstVertexCount = 3 ∧
    ¬ (_weldPrimitive primC6 optsW2).dstVertexCount ≤
        (_weldPrimitive primC6 optsW).dstVertexCount := by
  rw [weldRun_C6a, weldRun_C6b]
  refine ⟨by decide, by decide, by decide, rfl, rfl, by decide⟩

/-- C6 amended.  Tolerance monotonicity fails (see the counterexample); what
does hold for every input and tolerance is the reduction bound of the
neighboring spec sentence: the compacted vertex count never exceeds the
number of distinct index values, since the output counter is bumped at most
once per processed unique vertex. -/
theorem C6_amended (p : Prim) (o : ResolvedOptions) :
    (_weldPrimitive p o).dstVertexCount ≤ (_weldPrimitive p o).uniqueIndices.length := by
  rw [_weldPrimitive_dst, _weldPrimitive_uniqueIndices]
  have h := weldFold_dst_le (gridOf p o) (weldMatch p o) (srcPositionOf p) (cellSizeOf p o)
    (uniqueIndicesOf p)
    { weldMap := createIndices (uniqueIndicesOf p).length,
      writeMap := createIndices (uniqueIndicesOf p).length, dst := 0, oob := false }
  simpa [weldFoldResult] using h

/-- C4.  With resolved tolerance 0 and a draw mode other than POINTS,
`weldPrimitive` routes to `_indexPrimitive`: a primitive that already has an
index buffer is returned entirely unchanged (whatever `overwrite` says), and
a primitive without one gets exactly the identity index `[0..count)` over
the first attribute's count, with attributes, morph targets and mode
untouched. -/
theorem C4_tolerance_zero (p : Prim) (o : ResolvedOptions)
    (ht : o.tolerance = 0) (hm : ¬ p.mode = POINTS) :
    (∀ idx, p.indices = some idx → weldPrimitive p o = p) ∧
    (p.indices = none →
      weldPrimitive p o =
        { p with indices := some (createIndices ((p.attributes.headI).count)) }) := by
  unfold weldPrimitive
  constructor
  · intro idx hidx
    by_cases how : o.overwrite = false
    · rw [if_pos ⟨by simp [hidx], how⟩]
    · rw [if_neg (by simp [how]), if_neg hm, if_pos ht]
      simp [_indexPrimitive, hidx]
  · intro hidx
    rw [if_neg (by simp [hidx]), if_neg hm, if_pos ht]
    simp [_indexPrimitive, hidx]

/-- C4 witness: the unindexed triangle `primNoIdx` at tolerance 0 gains the
identity index [0, 1, 2] and nothing else changes. -/
theorem C4_witness :
    weldPrimitive primNoIdx optsZero =
      { primNoIdx with indices := some (createIndices ((primNoIdx.attributes.headI).count)) } :=
  (C4_tolerance_zero primNoIdx optsZero rfl (by decide)).2 rfl

/-- C5.  `weld` resolves its options against the defaults and validates the
tolerance synchronously, before the returned transform (the only part that
ever sees the document) is even built: it returns the configuration error
exactly when the resolved tolerance is outside [0, 0.1], and a transform
function exactly when it is inside. -/
theorem C5_tolerance_validation (o : WeldOptions) :
    (weld o = Except.error ("weld: Requires 0 <= tolerance <= 0.1") ↔
      ((resolveOptions o).tolerance > 1 / 10 ∨ (resolveOptions o).tolerance < 0)) ∧
    ((∃ f, weld o = Except.ok f) ↔
      (0 ≤ (resolveOptions o).tolerance ∧ (resolveOptions o).tolerance ≤ 1 / 10)) := by
  unfold weld
  by_cases h : (resolveOptions o).tolerance > 1 / 10 ∨ (resolveOptions o).tolerance < 0
  · rw [if_pos h]
    constructor
    · exact ⟨fun _ => h, fun _ => rfl⟩
    · constructor
      · rintro ⟨f, hf⟩
        exact absurd hf (by simp)
      · rintro ⟨h1, h2⟩
        rcases h with h3 | h3
        · exact absurd h2 (not_le.mpr h3)
        · exact absurd h1 (not_le.mpr h3)
  · rw [if_neg h]
    rw [not_or, not_lt, not_lt] at h
    constructor
    · constructor
      · intro he
        exact absurd he (by simp)
      · intro hc
        rcases hc with h3 | h3
        · exact absurd h.1 (not_le.mpr h3)
        · exact absurd h.2 (not_le.mpr h3)
    · exact ⟨fun _ => ⟨h.2, h.1⟩, fun _ => ⟨_, rfl⟩⟩

/-- C5 witness: an explicit tolerance of 1/5 is rejected with the
configuration error. -/
theorem C5_witness :
    weld { tolerance := some (1/5), overwrite := none } =
      Except.error ("weld: Requires 0 <= tolerance <= 0.1") :=
  (C5_tolerance_validation { tolerance := some (1/5), overwrite := none }).1.mpr
    (by decide)

/-- C7.  Two vertices that differ in any component of a JOINTS_* attribute
are never merged by the matcher: the per-semantic tolerance of a JOINTS_*
semantic is exactly 0, matching is a conjunction over all semantics, so a
successful match forces exact equality of the joints data; since exact
equality is transitive, the two vertices cannot even share a canonical
representative, regardless of positions or other attributes. -/
theorem C7_joints_never_merged (p : Prim) (o : ResolvedOptions) (attr : Attr)
    (a b k : ℕ) (hfind : p.getAttribute attr.semantic = some attr)
    (hj : jsStartsWith attr.semantic ("JOINTS_") = true)
    (hk : k < attr.elementSize)
    (hdiff : (attr.getElement a).getD k 0 ≠ (attr.getElement b).getD k 0)
    (ha : a < (_weldPrimitive p o).weldMap.length)
    (hb : b < (_weldPrimitive p o).weldMap.length) :
    (_weldPrimitive p o).weldMap.getD a 0 ≠ (_weldPrimitive p o).weldMap.getD b 0 := by
  intro heq
  rcases weldMap_invariant p o a ha with h1 | h1 <;>
    rcases weldMap_invariant p o b hb with h2 | h2
  · rw [h1, h2] at heq
    exact hdiff (by rw [heq])
  · rw [h1] at heq
    rw [← heq] at h2
    exact hdiff (weldMatch_joints_component p o attr b a k hfind hj hk h2).symm
  · rw [h2] at heq
    rw [heq] at h1
    exact hdiff (weldMatch_joints_component p o attr a b k hfind hj hk h1)
  · have e1 := weldMatch_joints_component p o attr a _ k hfind hj hk h1
    have e2 := weldMatch_joints_component p o attr b _ k hfind hj hk h2
    rw [heq] at e1
    exact hdiff (e1.trans e2.symm)

/-- C7 witness: on `primC7` (identical positions, JOINTS_0 values 1 and 2)
the two vertices end with distinct canonical representatives. -/
theorem C7_witness :
    (_weldPrimitive primC7 optsW).weldMap.getD 0 0 ≠
      (_weldPrimitive primC7 optsW).weldMap.getD 1 0 :=
  C7_joints_never_merged primC7 optsW jointsAttrC7 0 1 0 (by decide) (by decide)
    (by decide) (by decide) (by rw [weldRun_C7]; decide) (by rw [weldRun_C7]; decide)

/-- C8.  The grid key is per-coordinate `fround(c * round(c / cellSize))` —
the rounded quotient multiplied back by the coordinate itself — combined
into one composite key, and the neighborhood enumeration returns exactly the
27 keys (duplicates kept) of the points perturbed by i, j, k ∈ {-1, 0, 1}
half-cells. -/
theorem C8_grid_key_formula (x y z cellSize : ℚ) :
    getGridKey x y z cellSize =
      (gridKeySpecCoord x cellSize, gridKeySpecCoord y cellSize,
        gridKeySpecCoord z cellSize) ∧
    getGridNeighborhoodKeys x y z cellSize = gridNeighborhoodSpec x y z cellSize ∧
    (getGridNeighborhoodKeys x y z cellSize).length = 27 :=
  ⟨rfl, rfl, rfl⟩

/-- C9.  `weldPrimitive` returns the primitive untouched when it already has
indices and overwrite is off, and likewise for POINTS mode whatever the
options are. -/
theorem C9_noop_guards (p : Prim) (o : ResolvedOptions) :
    (p.indices.isSome = true ∧ o.overwrite = false → weldPrimitive p o = p) ∧
    (p.mode = POINTS → weldPrimitive p o = p) := by
  constructor
  · rintro ⟨h1, h2⟩
    unfold weldPrimitive
    rw [if_pos ⟨h1, h2⟩]
  · intro h
    unfold weldPrimitive
    by_cases h0 : p.indices.isSome = true ∧ o.overwrite = false
    · rw [if_pos h0]
    · rw [if_neg h0, if_pos h]

/-- C9 witness: an indexed primitive with overwrite=false, and a POINTS
primitive, both come back unchanged. -/
theorem C9_witness :
    weldPrimitive primIdx optsNoOverwrite = primIdx ∧
    weldPrimitive primPoints optsW = primPoints :=
  ⟨(C9_noop_guards primIdx optsNoOverwrite).1 (by decide),
   (C9_noop_guards primPoints optsW).2 (by decide)⟩

/-- C10.  The two maps are allocated with one slot per distinct index value
yet addressed by raw vertex indices, so the pass stays in bounds exactly
when the distinct index values are exactly {0, …, uniqueCount − 1}: with a
dense index set every access (candidate reads, the per-vertex reads and
writes, and the final index rewrite) lands inside the maps, while any value
at or beyond uniqueCount is itself a unique index whose processing reads
`weldMap` past the end — the reachable error branch of the embedding. -/
theorem C10_bounds_iff_dense (p : Prim) (o : ResolvedOptions)
    (hpos : (p.getAttribute ("POSITION")).isSome = true) :
    (_weldPrimitive p o).oob = false ↔
      ∀ v ∈ uniqueIndicesOf p, v < (uniqueIndicesOf p).length := by
  constructor
  · intro h v hv
    by_contra hlt
    have hfold : (weldFoldResult p o).oob = true := by
      unfold weldFoldResult
      exact weldFold_oob_of_mem (gridOf p o) (weldMatch p o) (srcPositionOf p)
        (cellSizeOf p o) (uniqueIndicesOf p) v _ hv
        (by simpa [createIndices] using hlt)
    rw [_weldPrimitive_oob, hfold] at h
    simp at h
  · intro hdense
    have hgrid : ∀ k v, v ∈ gridOf p o k → v < (uniqueIndicesOf p).length := by
      intro k v hv
      exact hdense v (mem_buildGrid (srcPositionOf p) (uniqueIndicesOf p) (cellSizeOf p o) k v hv)
    have hgood : MapsGood (uniqueIndicesOf p).length (weldFoldResult p o) := by
      unfold weldFoldResult
      refine weldFold_MapsGood (uniqueIndicesOf p).length (gridOf p o) (weldMatch p o)
        (srcPositionOf p) (cellSizeOf p o) (uniqueIndicesOf p) _ ?_ hdense hgrid
      exact ⟨by simp [createIndices], by simp [createIndices],
        fun i hi => by rw [getD_createIndices _ _ hi]; exact hi, rfl⟩
    obtain ⟨hwl, hrl, hent, hoob⟩ := hgood
    rw [_weldPrimitive_oob, hoob]
    simp only [Bool.false_or]
    rw [List.any_eq_false]
    rintro x hx
    obtain ⟨i, hi, rfl⟩ := List.mem_map.mp hx
    have hiu : i < (uniqueIndicesOf p).length :=
      hdense i ((mem_setDedup (srcIndicesOf p) i).mpr hi)
    simp [mread, hrl, hiu]

/-- C10 witness: on the sparse-index `primC10` (distinct values {0, 2}, so
not {0, 1}) the pass makes an out-of-bounds map access. -/
theorem C10_witness : (_weldPrimitive primC10 optsW).oob = true := by
  have h := C10_bounds_iff_dense primC10 optsW (by decide)
  cases hb : (_weldPrimitive primC10 optsW).oob with
  | false => exact absurd (h.mp hb 2 (by decide)) (by decide)
  | true => rfl

end DecideEval

end GltfWeld
